import Mathlib

/-!
Verification of the `HttpStore` remote-cache client
(`packages/metro-cache/src/stores/HttpStore.js`).

The development shallowly embeds the pieces of the store the claims are
about:

* a model of JSON values together with models of `JSON.stringify` and
  `JSON.parse` (platform functions used by `get`/`set`); numbers are
  modelled as integers and object members as ordered key/value lists;
* the constructor logic (transport selection, endpoint validation, port
  coercion), with the result of Node's `url.parse` taken as input;
* the request-option construction of `get` and `set` (hex-encoded key
  paths, stored port);
* the response-handling logic of `get` (status branching, streamed
  gunzip accumulation, parse) and of `set` (status-blind draining);
* gzip/gunzip themselves are external `zlib` streams and are kept
  abstract: theorems about the encode/decode pipeline take the codec as
  a parameter together with the inversion property the library provides.
-/

/-- JSON values as produced by `JSON.parse`: `null`, booleans, numbers
(modelled as integers), strings, arrays, and objects as ordered lists of
key/value members. -/
inductive Json where
  | null
  | bool (b : Bool)
  | num (n : Int)
  | str (text : String)
  | arr (items : List Json)
  | obj (entries : List (String × Json))
deriving Repr

/-- The decimal digit character for `n < 10`. -/
def digitChar (n : Nat) : Char := Char.ofNat (48 + n)

/-- Lowercase hexadecimal digit character for `n < 16`: `0`-`9` then
`a`-`f`.  This is the alphabet Node's `Buffer.toString('hex')` and the
`\u00xx` escapes of `JSON.stringify` use. -/
def hexDigitChar (n : Nat) : Char :=
  if n < 10 then Char.ofNat (48 + n) else Char.ofNat (87 + n)

/-- Decimal digit run of a natural number, most significant first,
written with explicit fuel so that it evaluates by kernel reduction.
`natCharsF (n+1) n` always has enough fuel. -/
def natCharsF : Nat → Nat → List Char
  | 0, _ => []
  | f + 1, n =>
    if n < 10 then [digitChar n]
    else natCharsF f (n / 10) ++ [digitChar (n % 10)]

/-- Decimal digit run of a natural number, most significant first. -/
def natChars (n : Nat) : List Char := natCharsF (n + 1) n

/-- Decimal rendering of an integer, as `JSON.stringify` renders
integral numbers: optional minus sign followed by digits. -/
def intChars (n : Int) : List Char :=
  if n < 0 then '-' :: natChars n.natAbs else natChars n.toNat

/-- The lowercase `\u00xx` escape of a control character whose code is
`m < 32`: backslash, `u`, two zero digits, then the two hex digits of
`m`. -/
def uEscape (m : Nat) : List Char :=
  '\\' :: 'u' :: '0' :: '0' :: hexDigitChar (m / 16) :: [hexDigitChar (m % 16)]

/-- The escape `JSON.stringify` applies to one string character:
`"` and `\` are backslash-escaped, the named control escapes
`\b \t \n \f \r` are used where they exist, any other control
character becomes a lowercase `\u00xx` escape, and all other
characters stand for themselves. -/
def escapeChar (c : Char) : List Char :=
  if c = '"' then ['\\', '"']
  else if c = '\\' then ['\\', '\\']
  else if c = '\x08' then ['\\', 'b']
  else if c = '\t' then ['\\', 't']
  else if c = '\n' then ['\\', 'n']
  else if c = '\x0c' then ['\\', 'f']
  else if c = '\r' then ['\\', 'r']
  else if c.toNat < 32 then uEscape c.toNat
  else [c]

/-- The body of a serialized JSON string: every character escaped. -/
def escBody : List Char → List Char
  | [] => []
  | c :: cs => escapeChar c ++ escBody cs

/-- A serialized JSON string: quote, escaped body, quote. -/
def encodeStrC (s : List Char) : List Char :=
  '"' :: escBody s ++ ['"']

mutual
/-- Model of `JSON.stringify` (character-list form): the compact
serialization with no added whitespace that `JSON.stringify(v)`
produces. -/
def stringifyC : Json → List Char
  | .null => "null".data
  | .bool true => "true".data
  | .bool false => "false".data
  | .num n => intChars n
  | .str s => encodeStrC s.data
  | .arr [] => ['[', ']']
  | .arr (x :: xs) => '[' :: stringifyC x ++ arrTailC xs ++ [']']
  | .obj [] => ['\x7b', '\x7d']
  | .obj ((k, v) :: kvs) =>
      '\x7b' :: encodeStrC k.data ++ ':' :: stringifyC v ++ objTailC kvs ++ ['\x7d']

/-- Serialization of the second and later array elements, each preceded
by a comma. -/
def arrTailC : List Json → List Char
  | [] => []
  | x :: xs => ',' :: stringifyC x ++ arrTailC xs

/-- Serialization of the second and later object members, each preceded
by a comma. -/
def objTailC : List (String × Json) → List Char
  | [] => []
  | (k, v) :: kvs => ',' :: encodeStrC k.data ++ ':' :: stringifyC v ++ objTailC kvs
end

/-- Model of `JSON.stringify` on a serializable value. -/
def jsonStringify (v : Json) : String := ⟨stringifyC v⟩

/-- Is `c` a decimal digit? -/
def isDigitC (c : Char) : Bool := 48 ≤ c.toNat && c.toNat ≤ 57

/-- Numeric value of a decimal digit character. -/
def digitVal (c : Char) : Nat := c.toNat - 48

/-- Numeric value of a hexadecimal digit character, either case. -/
def parseHexDigit (c : Char) : Option Nat :=
  if 48 ≤ c.toNat && c.toNat ≤ 57 then some (c.toNat - 48)
  else if 97 ≤ c.toNat && c.toNat ≤ 102 then some (c.toNat - 87)
  else if 65 ≤ c.toNat && c.toNat ≤ 70 then some (c.toNat - 55)
  else none

/-- Parse the body of a JSON string after the opening quote, undoing the
escapes, up to and over the closing quote.  Returns the decoded
characters and the remaining input. -/
def parseStringBody : List Char → Option (List Char × List Char)
  | [] => none
  | c :: rest =>
    if c = '"' then some ([], rest)
    else if c = '\\' then
      match rest with
      | [] => none
      | e :: r =>
        if e = '"' ∨ e = '\\' ∨ e = '/' then
          (parseStringBody r).map fun p => (e :: p.1, p.2)
        else if e = 'b' then (parseStringBody r).map fun p => ('\x08' :: p.1, p.2)
        else if e = 't' then (parseStringBody r).map fun p => ('\t' :: p.1, p.2)
        else if e = 'n' then (parseStringBody r).map fun p => ('\n' :: p.1, p.2)
        else if e = 'f' then (parseStringBody r).map fun p => ('\x0c' :: p.1, p.2)
        else if e = 'r' then (parseStringBody r).map fun p => ('\r' :: p.1, p.2)
        else if e = 'u' then
          match r with
          | a :: b :: c2 :: d :: r2 =>
            match parseHexDigit a, parseHexDigit b, parseHexDigit c2, parseHexDigit d with
            | some x, some y, some z, some w =>
              (parseStringBody r2).map fun p =>
                (Char.ofNat (4096 * x + 256 * y + 16 * z + w) :: p.1, p.2)
            | _, _, _, _ => none
          | _ => none
        else none
    else (parseStringBody rest).map fun p => (c :: p.1, p.2)

/-- Parse a run of decimal digits, extending the accumulator `acc`;
stops at the first non-digit. -/
def parseDigits : Nat → List Char → Nat × List Char
  | acc, [] => (acc, [])
  | acc, c :: rest =>
    if isDigitC c then parseDigits (10 * acc + digitVal c) rest else (acc, c :: rest)

/-- Parse a JSON number (integral form: optional minus sign and a digit
run). -/
def parseNumber : List Char → Option (Json × List Char)
  | [] => none
  | c :: rest =>
    if c = '-' then
      match rest with
      | [] => none
      | c2 :: rest2 =>
        if isDigitC c2 then
          let p := parseDigits (digitVal c2) rest2
          some (.num (-(p.1 : Int)), p.2)
        else none
    else if isDigitC c then
      let p := parseDigits (digitVal c) rest
      some (.num ((p.1 : Nat) : Int), p.2)
    else none

mutual
/-- Model of `JSON.parse` (fuelled recursive descent over the character
list): parses one JSON value and returns it with the remaining input.
`JSON.parse` also skips whitespace, which never occurs in the compact
texts `JSON.stringify` produces; the model covers the whitespace-free
grammar. -/
def parseValue : Nat → List Char → Option (Json × List Char)
  | 0, _ => none
  | _ + 1, [] => none
  | fuel + 1, c :: rest =>
    if c = 'n' then
      match rest with
      | c1 :: c2 :: c3 :: r => if c1 = 'u' ∧ c2 = 'l' ∧ c3 = 'l' then some (.null, r) else none
      | _ => none
    else if c = 't' then
      match rest with
      | c1 :: c2 :: c3 :: r =>
        if c1 = 'r' ∧ c2 = 'u' ∧ c3 = 'e' then some (.bool true, r) else none
      | _ => none
    else if c = 'f' then
      match rest with
      | c1 :: c2 :: c3 :: c4 :: r =>
        if c1 = 'a' ∧ c2 = 'l' ∧ c3 = 's' ∧ c4 = 'e' then some (.bool false, r) else none
      | _ => none
    else if c = '"' then
      (parseStringBody rest).map fun p => (.str ⟨p.1⟩, p.2)
    else if c = '[' then
      match rest with
      | [] => none
      | c2 :: rest2 =>
        if c2 = ']' then some (.arr [], rest2)
        else
          match parseValue fuel (c2 :: rest2) with
          | some (v, r1) =>
            match parseArrayTail fuel r1 with
            | some (vs, r2) => some (.arr (v :: vs), r2)
            | none => none
          | none => none
    else if c = '\x7b' then
      match rest with
      | [] => none
      | c2 :: rest2 =>
        if c2 = '\x7d' then some (.obj [], rest2)
        else if c2 = '"' then
          match parseStringBody rest2 with
          | some (k, r1) =>
            match r1 with
            | ':' :: r2 =>
              match parseValue fuel r2 with
              | some (v, r3) =>
                match parseObjTail fuel r3 with
                | some (kvs, r4) => some (.obj ((⟨k⟩, v) :: kvs), r4)
                | none => none
              | none => none
            | _ => none
          | none => none
        else none
    else parseNumber (c :: rest)

/-- Parse the part of an array after its first element: a possibly
empty run of comma-preceded elements, closed by `]`. -/
def parseArrayTail : Nat → List Char → Option (List Json × List Char)
  | 0, _ => none
  | _ + 1, [] => none
  | fuel + 1, c :: rest =>
    if c = ']' then some ([], rest)
    else if c = ',' then
      match parseValue fuel rest with
      | some (v, r1) =>
        match parseArrayTail fuel r1 with
        | some (vs, r2) => some (v :: vs, r2)
        | none => none
      | none => none
    else none

/-- Parse the part of an object after its first member: a possibly
empty run of comma-preceded members, closed by the closing brace. -/
def parseObjTail : Nat → List Char → Option (List (String × Json) × List Char)
  | 0, _ => none
  | _ + 1, [] => none
  | fuel + 1, c :: rest =>
    if c = '\x7d' then some ([], rest)
    else if c = ',' then
      match rest with
      | c2 :: rest2 =>
        if c2 = '"' then
          match parseStringBody rest2 with
          | some (k, r1) =>
            match r1 with
            | ':' :: r2 =>
              match parseValue fuel r2 with
              | some (v, r3) =>
                match parseObjTail fuel r3 with
                | some (kvs, r4) => some ((⟨k⟩, v) :: kvs, r4)
                | none => none
              | none => none
            | _ => none
          | none => none
        else none
      | [] => none
    else none
end

/-- Model of `JSON.parse` on a complete text: parses one value with
ample fuel and requires the whole input to be consumed; any failure is
the `SyntaxError` that `JSON.parse` throws. -/
def jsonParse (s : String) : Option Json :=
  match parseValue (2 * s.data.length + 2) s.data with
  | some (v, []) => some v
  | _ => none

/-- Transport module selected by the constructor: Node's `http` or
`https`. -/
inductive Transport where
  | http
  | https
deriving Repr, DecidableEq

/-- The default port of each transport scheme, which the store does NOT
fall back to when the endpoint URL names no port. -/
def Transport.defaultPort : Transport → Nat
  | .http => 80
  | .https => 443

/-- Result of Node's legacy `url.parse` on the endpoint string, as the
constructor consumes it: `protocol` is the scheme with trailing colon
(absent when unparsable), `hostname` and `pathname` are absent or
possibly empty strings, `port` is the numeric value of the port when
the URL carries one.  `url.parse` is platform code; the embedding takes
its output as the constructor's input. -/
structure ParsedUrl where
  protocol : Option String
  hostname : Option String
  pathname : Option String
  port : Option Nat
deriving Repr, DecidableEq

/-- JS truthiness of `uri.hostname` / `uri.pathname` (a string or
null): false exactly on null and on the empty string. -/
def truthyStr : Option String → Bool
  | none => false
  | some s => !(s == "")

/-- JS `x || y` on an optional number (`options.timeout || 5000`):
null and 0 are falsy. -/
def jsOrNum : Option Nat → Nat → Nat
  | none, d => d
  | some n, d => if n = 0 then d else n

/-- JS unary plus applied to `uri.port` (a digit string or null):
null coerces to 0, a present port to its numeric value. -/
def jsPlusPort : Option Nat → Nat
  | none => 0
  | some n => n

/-- `const module = uri.protocol === 'http:' ? http : https`. -/
def selectTransport (protocol : Option String) : Transport :=
  if protocol = some "http:" then .http else .https

/-- The `agentConfig` built by the constructor for both pools. -/
structure AgentConfig where
  family : Option Nat
  keepAlive : Bool
  keepAliveMsecs : Nat
  maxSockets : Nat
  maxFreeSockets : Nat
deriving Repr, DecidableEq

/-- The constructed store: `HttpStore`'s instance fields. -/
structure HttpStore where
  _module : Transport
  _timeout : Nat
  _host : String
  _path : String
  _port : Nat
  _getAgent : AgentConfig
  _setAgent : AgentConfig
deriving Repr, DecidableEq

/-- The `TypeError` thrown for an invalid endpoint. -/
structure JsTypeError where
  message : String
deriving Repr, DecidableEq

/-- The constructor of `HttpStore`: selects the transport from the
parsed protocol, builds the keep-alive agent configuration, throws a
`TypeError` (modelled as `Except.error`) when hostname or pathname is
falsy, and otherwise stores module, timeout, host, path, the coerced
port, and the two agents. -/
def HttpStore.construct (endpoint : String) (uri : ParsedUrl)
    (family : Option Nat) (timeout : Option Nat) : Except JsTypeError HttpStore :=
  let m := selectTransport uri.protocol
  let agentConfig : AgentConfig :=
    { family := family, keepAlive := true, keepAliveMsecs := jsOrNum timeout 5000,
      maxSockets := 64, maxFreeSockets := 64 }
  if !truthyStr uri.hostname || !truthyStr uri.pathname then
    Except.error ⟨"Invalid endpoint: " ++ endpoint⟩
  else
    Except.ok
      { _module := m, _timeout := jsOrNum timeout 5000,
        _host := uri.hostname.getD "", _path := uri.pathname.getD "",
        _port := jsPlusPort uri.port,
        _getAgent := agentConfig, _setAgent := agentConfig }

/-- `key.toString('hex')` (character-list form): each key byte rendered
as two lowercase hexadecimal digits, in order. -/
def keyToHexC : List (Fin 256) → List Char
  | [] => []
  | b :: bs => hexDigitChar (b.val / 16) :: hexDigitChar (b.val % 16) :: keyToHexC bs

/-- `key.toString('hex')`. -/
def keyToHex (key : List (Fin 256)) : String := ⟨keyToHexC key⟩

/-- Is every character of `s` a lowercase hexadecimal digit
(`0`-`9` or `a`-`f`)? -/
def isLowerHexStr (s : String) : Bool :=
  s.data.all fun c => (48 ≤ c.toNat && c.toNat ≤ 57) || (97 ≤ c.toNat && c.toNat ≤ 102)

/-- The `options` object passed to `module.request` by `get`/`set`. -/
structure RequestOptions where
  agent : AgentConfig
  host : String
  method : String
  path : String
  port : Nat
  timeout : Nat
deriving Repr, DecidableEq

/-- The request options `get` builds: method GET, the read agent, and
the path `this._path + '/' + key.toString('hex')`. -/
def HttpStore.getRequestOptions (s : HttpStore) (key : List (Fin 256)) : RequestOptions :=
  { agent := s._getAgent, host := s._host, method := "GET",
    path := s._path ++ "/" ++ keyToHex key, port := s._port, timeout := s._timeout }

/-- The request options `set` builds: method PUT, the write agent, and
the same path convention as `get`. -/
def HttpStore.setRequestOptions (s : HttpStore) (key : List (Fin 256)) : RequestOptions :=
  { agent := s._setAgent, host := s._host, method := "PUT",
    path := s._path ++ "/" ++ keyToHex key, port := s._port, timeout := s._timeout }

/-- Modelled from the spec: the `HttpError` and `NetworkError` classes
required by `HttpStore.js` live in sibling modules that are not among
the sources in view; the spec calls them `ProtocolError` (message plus
status-code field) and `TransportError` (message plus optional fault
code).  A decode failure rejects the raw error coming from `zlib` or
`JSON.parse`, which is an instance of neither class.  These are the
errors a `get` operation can reject with. -/
inductive StoreError where
  | protocolError (message : String) (statusCode : Nat)
  | transportError (message : String) (code : Option String)
  | decodeError (message : String)
deriving Repr, DecidableEq

/-- Outcome of the `get` response callback: the promise resolves with
`null` (miss) or with the parsed value, or rejects with an error. -/
inductive GetOutcome where
  | resolved (value : Option Json)
  | rejected (e : StoreError)
deriving Repr

/-- What the gunzip stream attached to a 200 response delivers: either
the decompressed text chunks followed by `end`, or an `error` event
(its own, or forwarded from the response stream). -/
inductive GunzipResult where
  | chunks (cs : List String)
  | fail (message : String)
deriving Repr, DecidableEq

/-- The response callback of `HttpStore.get`: status 404 resolves
`null`; any status other than 200 and 404 rejects
`HttpError('HTTP error: ' + code, code)`; status 200 pipes the body
through gunzip, accumulates the decompressed chunks into `data`, and on
`end` resolves `JSON.parse(data)`, rejecting the parse error when
parsing throws; a gunzip stream error (or a response stream error,
which is forwarded to the gunzip stream) rejects that error. -/
def HttpStore.getOnResponse (statusCode : Nat) (gunzipped : GunzipResult) : GetOutcome :=
  if statusCode = 404 then .resolved none
  else if statusCode ≠ 200 then
    .rejected (.protocolError ("HTTP error: " ++ toString statusCode) statusCode)
  else
    match gunzipped with
    | .fail e => .rejected (.decodeError e)
    | .chunks cs =>
      match jsonParse (cs.foldl (· ++ ·) "") with
      | some v => .resolved (some v)
      | none => .rejected (.decodeError "SyntaxError: unexpected token in JSON")

/-- Does the `get` response callback drain the body via `res.resume()`?
True on the 404 branch and on the non-200 error branch (the 200 branch
pipes the body instead). -/
def HttpStore.getDrainsBody (statusCode : Nat) : Bool :=
  if statusCode = 404 then true
  else if statusCode ≠ 200 then true
  else false

/-- `ZLIB_OPTIONS`: the options `set` passes to `zlib.createGzip`. -/
structure ZlibOptions where
  level : Nat
deriving Repr, DecidableEq

/-- `const ZLIB_OPTIONS = \x7b level: 9 \x7d`. -/
def ZLIB_OPTIONS : ZlibOptions := { level := 9 }

/-- zlib's maximum compression level, its constant
`Z_BEST_COMPRESSION`. -/
def Z_BEST_COMPRESSION : Nat := 9

/-- Model of `JSON.stringify` as `set` applies it to an arbitrary cache
value: a serializable value yields its serialized text, an
unserializable one (`undefined`, a function, a symbol) yields
`undefined`, modelled as `none`. -/
def jsStringify : Option Json → Option String
  | none => none
  | some v => some (jsonStringify v)

/-- JS `x || y` on an optional string: null and the empty string are
falsy. -/
def jsOrStr : Option String → String → String
  | none, d => d
  | some s, d => if s = "" then d else s

/-- The text `set` writes into the gzip stream:
`JSON.stringify(value) || 'null'`. -/
def HttpStore.setSerialized (value : Option Json) : String :=
  jsOrStr (jsStringify value) "null"

/-- The request body `set(k, v)` sends: the serialized text compressed
by the external gzip stream (abstract codec parameter) created with
`ZLIB_OPTIONS`. -/
def HttpStore.setBody {β : Type} (gzip : ZlibOptions → String → β)
    (value : Option Json) : β :=
  gzip ZLIB_OPTIONS (HttpStore.setSerialized value)

/-- Outcome of the `set` response callback. -/
inductive SetOutcome where
  | resolved
  | rejected (message : String)
deriving Repr, DecidableEq

/-- The response `set`'s callback observes: its status code, and
whether the drained stream emitted an `error` event instead of reaching
`end`. -/
structure SetResponse where
  statusCode : Nat
  streamError : Option String
deriving Repr, DecidableEq

/-- The response callback of `HttpStore.set`: drains the response with
`res.resume()`, resolves on `end`, rejects a stream `error`; the status
code is never inspected. -/
def HttpStore.setOnResponse (res : SetResponse) : SetOutcome :=
  match res.streamError with
  | some e => .rejected e
  | none => .resolved


/-! ## Helper lemmas -/

/-- `natChars` never produces the empty digit run. -/
theorem natChars_ne_nil (n : Nat) : natChars n ≠ [] := by
  unfold natChars natCharsF
  split <;> simp

/-- `stringifyC` never produces the empty text. -/
theorem stringifyC_ne_nil (v : Json) : stringifyC v ≠ [] := by
  match v with
  | .null => simp [stringifyC]
  | .bool true => simp [stringifyC]
  | .bool false => simp [stringifyC]
  | .num n =>
    simp only [stringifyC, intChars]
    split
    · simp
    · exact natChars_ne_nil _
  | .str s => simp [stringifyC, encodeStrC]
  | .arr [] => simp [stringifyC]
  | .arr (x :: xs) => simp [stringifyC]
  | .obj [] => simp [stringifyC]
  | .obj ((k, w) :: kvs) => simp [stringifyC]

/-- A serializable value serializes to nonempty text, so the
`|| 'null'` fallback never rewrites it. -/
theorem setSerialized_some (j : Json) :
    HttpStore.setSerialized (some j) = jsonStringify j := by
  unfold HttpStore.setSerialized jsStringify jsOrStr
  have h : jsonStringify j ≠ "" := by
    unfold jsonStringify
    intro hc
    exact stringifyC_ne_nil j (congrArg String.data hc)
  simp [h]

/-- Every character `keyToHexC` emits is a lowercase hex digit. -/
theorem keyToHexC_lower (k : List (Fin 256)) :
    ∀ c ∈ keyToHexC k,
      ((48 ≤ c.toNat && c.toNat ≤ 57) || (97 ≤ c.toNat && c.toNat ≤ 102)) = true := by
  induction k with
  | nil => intro c hc; cases hc
  | cons b bs ih =>
    intro c hc
    have hlt : ∀ m : Nat, m < 16 →
        ((48 ≤ (hexDigitChar m).toNat && (hexDigitChar m).toNat ≤ 57) ||
          (97 ≤ (hexDigitChar m).toNat && (hexDigitChar m).toNat ≤ 102)) = true := by decide
    simp only [keyToHexC, List.mem_cons] at hc
    rcases hc with rfl | rfl | hc
    · exact hlt (b.val / 16) (by omega)
    · exact hlt (b.val % 16) (by omega)
    · exact ih c hc

/-! ## Claim theorems (easy group) -/

/-- C2: when the server responds to `get(k)` with HTTP status 404, the
operation drains the response body and resolves with the explicit
absent result (`null`) — never an error — whatever the body stream
would have delivered. -/
theorem get_404_resolves_absent (g : GunzipResult) :
    HttpStore.getOnResponse 404 g = .resolved none ∧
    HttpStore.getDrainsBody 404 = true :=
  ⟨rfl, rfl⟩

/-- C3: a completed `get` response whose status is neither 200 nor 404
drains the body and rejects a `ProtocolError` whose message is
`HTTP error: <code>` and whose status-code field is the response
status. -/
theorem get_other_status_protocol_error (code : Nat) (g : GunzipResult)
    (h200 : code ≠ 200) (h404 : code ≠ 404) :
    HttpStore.getOnResponse code g =
      .rejected (.protocolError ("HTTP error: " ++ toString code) code) ∧
    HttpStore.getDrainsBody code = true := by
  unfold HttpStore.getOnResponse HttpStore.getDrainsBody
  simp [h200, h404]

/-- C3 witness: a 500 response rejects `ProtocolError` with status
code 500. -/
theorem get_other_status_protocol_error_witness :
    HttpStore.getOnResponse 500 (.chunks []) =
      .rejected (.protocolError ("HTTP error: " ++ toString 500) 500) ∧
    HttpStore.getDrainsBody 500 = true :=
  get_other_status_protocol_error 500 (.chunks []) (by decide) (by decide)

/-- C4: `set` performs no status-code branching on the response — the
outcome is independent of the status; a response without a stream error
resolves success whatever its status, and only a stream error makes
`set` fail. -/
theorem set_ignores_status_code :
    (∀ c1 c2 e, HttpStore.setOnResponse ⟨c1, e⟩ = HttpStore.setOnResponse ⟨c2, e⟩) ∧
    (∀ c, HttpStore.setOnResponse ⟨c, none⟩ = .resolved) ∧
    (∀ c m, HttpStore.setOnResponse ⟨c, some m⟩ = .rejected m) :=
  ⟨fun _ _ e => by cases e <;> rfl, fun _ => rfl, fun _ _ => rfl⟩

/-- C5: on a 200 response, a JSON parse failure of the accumulated
decompressed text, or an error emitted by the decompression stream,
rejects the generic decode error (the parser's or the decompressor's
own error), which is never a `ProtocolError`. -/
theorem get_decode_failure_generic (cs : List String) (e : String)
    (hparse : jsonParse (cs.foldl (· ++ ·) "") = none) :
    HttpStore.getOnResponse 200 (.chunks cs) =
      .rejected (.decodeError "SyntaxError: unexpected token in JSON") ∧
    HttpStore.getOnResponse 200 (.fail e) = .rejected (.decodeError e) ∧
    (∀ m c, HttpStore.getOnResponse 200 (.chunks cs) ≠ .rejected (.protocolError m c)) ∧
    (∀ m c, HttpStore.getOnResponse 200 (.fail e) ≠ .rejected (.protocolError m c)) := by
  unfold HttpStore.getOnResponse
  simp [hparse]

/-- C5 witness: the truncated text of a lone opening brace fails to
parse and rejects the generic decode error. -/
theorem get_decode_failure_generic_witness :
    HttpStore.getOnResponse 200 (.chunks ["\x7b"]) =
      .rejected (.decodeError "SyntaxError: unexpected token in JSON") ∧
    HttpStore.getOnResponse 200 (.fail "gunzip: unexpected end of file") =
      .rejected (.decodeError "gunzip: unexpected end of file") ∧
    (∀ m c, HttpStore.getOnResponse 200 (.chunks ["\x7b"]) ≠ .rejected (.protocolError m c)) ∧
    (∀ m c, HttpStore.getOnResponse 200 (.fail "gunzip: unexpected end of file") ≠
      .rejected (.protocolError m c)) :=
  get_decode_failure_generic ["\x7b"] "gunzip: unexpected end of file" (by rfl)

/-- C6: the constructed client uses the plain-HTTP transport exactly
when the parsed endpoint scheme is the string `http:`; every other
protocol value (unknown, malformed, or absent) selects HTTPS. -/
theorem scheme_selects_transport (endpoint : String) (uri : ParsedUrl)
    (family timeout : Option Nat) (s : HttpStore)
    (h : HttpStore.construct endpoint uri family timeout = .ok s) :
    s._module = .http ↔ uri.protocol = some "http:" := by
  unfold HttpStore.construct at h
  split at h
  · cases h
  · injection h with h
    subst h
    unfold selectTransport
    by_cases hp : uri.protocol = some "http:" <;> simp [hp]

/-- C6 witness: an `http:` endpoint yields the HTTP transport. -/
theorem scheme_selects_transport_witness :
    ({ _module := Transport.http, _timeout := 5000, _host := "x", _path := "/y", _port := 0,
       _getAgent := ⟨none, true, 5000, 64, 64⟩,
       _setAgent := ⟨none, true, 5000, 64, 64⟩ } : HttpStore)._module = Transport.http ↔
      (⟨some "http:", some "x", some "/y", none⟩ : ParsedUrl).protocol = some "http:" :=
  scheme_selects_transport "http://x/y" ⟨some "http:", some "x", some "/y", none⟩ none none _
    (by rfl)

/-- C7: construction succeeds exactly when the parsed endpoint has a
truthy hostname and a truthy pathname; otherwise the constructor throws
the `Invalid endpoint` `TypeError` at construction time. -/
theorem invalid_endpoint_fatal (endpoint : String) (uri : ParsedUrl)
    (family timeout : Option Nat) :
    ((∃ s, HttpStore.construct endpoint uri family timeout = .ok s) ↔
      (truthyStr uri.hostname = true ∧ truthyStr uri.pathname = true)) ∧
    ((truthyStr uri.hostname && truthyStr uri.pathname) = false →
      HttpStore.construct endpoint uri family timeout =
        .error ⟨"Invalid endpoint: " ++ endpoint⟩) := by
  unfold HttpStore.construct
  by_cases hh : truthyStr uri.hostname = true <;>
    by_cases hp : truthyStr uri.pathname = true <;>
      simp [hh, hp]

/-- C7 witness: a host-less endpoint fails at construction with the
`Invalid endpoint` error. -/
theorem invalid_endpoint_fatal_witness :
    HttpStore.construct "ftp:" ⟨some "ftp:", none, none, none⟩ none none =
      .error ⟨"Invalid endpoint: ftp:"⟩ :=
  (invalid_endpoint_fatal "ftp:" ⟨some "ftp:", none, none, none⟩ none none).2 (by decide)

/-- C8: the body `set(k, v)` sends is the gzip compression — with the
`ZLIB_OPTIONS` level, which is zlib's maximum compression level 9 — of
the JSON serialization of `v`, where an undefined or empty
serialization is replaced by the literal text `null`. -/
theorem set_body_is_gzipped_json (β : Type) (gzip : ZlibOptions → String → β)
    (v : Option Json) :
    HttpStore.setBody gzip v =
      gzip { level := Z_BEST_COMPRESSION } (HttpStore.setSerialized v) ∧
    ZLIB_OPTIONS.level = Z_BEST_COMPRESSION ∧
    HttpStore.setSerialized none = "null" ∧
    jsOrStr (some "") "null" = "null" ∧
    (∀ j, HttpStore.setSerialized (some j) = jsonStringify j) :=
  ⟨rfl, rfl, rfl, rfl, setSerialized_some⟩

/-- C9: both `get` and `set` address the key at
`basePath + "/" + hex(key)` with the same deterministic lowercase
hexadecimal rendering of the key bytes. -/
theorem request_path_lower_hex (s : HttpStore) (k k2 : List (Fin 256)) :
    (s.getRequestOptions k).path = s._path ++ "/" ++ keyToHex k ∧
    (s.setRequestOptions k).path = (s.getRequestOptions k).path ∧
    isLowerHexStr (keyToHex k) = true ∧
    (k = k2 →
      (s.getRequestOptions k).path = (s.getRequestOptions k2).path ∧
      (s.setRequestOptions k).path = (s.setRequestOptions k2).path) := by
  refine ⟨rfl, rfl, ?_, ?_⟩
  · unfold isLowerHexStr keyToHex
    exact List.all_eq_true.mpr (keyToHexC_lower k)
  · rintro rfl
    exact ⟨rfl, rfl⟩

/-- C9 witness: the two-byte key `00ff` addresses `/p/00ff` from both
operations. -/
theorem request_path_lower_hex_witness :
    let store : HttpStore :=
      { _module := Transport.http, _timeout := 5000, _host := "h", _path := "/p", _port := 0,
        _getAgent := ⟨none, true, 5000, 64, 64⟩, _setAgent := ⟨none, true, 5000, 64, 64⟩ }
    (store.getRequestOptions [0, 255]).path = store._path ++ "/" ++ keyToHex [0, 255] ∧
    (store.setRequestOptions [0, 255]).path = (store.getRequestOptions [0, 255]).path ∧
    isLowerHexStr (keyToHex [0, 255]) = true ∧
    ([0, 255] = ([0, 255] : List (Fin 256)) →
      (store.getRequestOptions [0, 255]).path = (store.getRequestOptions [0, 255]).path ∧
      (store.setRequestOptions [0, 255]).path = (store.setRequestOptions [0, 255]).path) :=
  request_path_lower_hex _ [0, 255] [0, 255]

/-- C10: when the endpoint URL names no port, the constructor stores
the JS coercion `+null = 0` as the port — not the scheme's default 80
or 443 — and both `get` and `set` requests carry that stored 0. -/
theorem absent_port_stored_as_zero (endpoint : String) (uri : ParsedUrl)
    (family timeout : Option Nat) (s : HttpStore) (k : List (Fin 256))
    (hok : HttpStore.construct endpoint uri family timeout = .ok s)
    (hport : uri.port = none) :
    s._port = 0 ∧
    (s.getRequestOptions k).port = 0 ∧
    (s.setRequestOptions k).port = 0 ∧
    s._port ≠ s._module.defaultPort := by
  unfold HttpStore.construct at hok
  split at hok
  · cases hok
  · injection hok with hok
    subst hok
    refine ⟨by simp [jsPlusPort, hport],
      by simp [HttpStore.getRequestOptions, jsPlusPort, hport],
      by simp [HttpStore.setRequestOptions, jsPlusPort, hport], ?_⟩
    cases hm : selectTransport uri.protocol <;>
      simp [Transport.defaultPort, hm, jsPlusPort, hport]

/-- C10 witness: an HTTPS endpoint without a port stores port 0 and
both request option records carry 0. -/
theorem absent_port_stored_as_zero_witness :
    let store : HttpStore :=
      { _module := Transport.https, _timeout := 5000, _host := "h", _path := "/p", _port := 0,
        _getAgent := ⟨none, true, 5000, 64, 64⟩, _setAgent := ⟨none, true, 5000, 64, 64⟩ }
    store._port = 0 ∧
    (store.getRequestOptions []).port = 0 ∧
    (store.setRequestOptions []).port = 0 ∧
    store._port ≠ store._module.defaultPort :=
  absent_port_stored_as_zero "https://h/p" ⟨some "https:", some "h", some "/p", none⟩
    none none _ [] (by rfl) (by rfl)

/-! ## Round-trip of the JSON codec: digits and numbers -/

/-- Does the input start with a decimal digit?  Used to state that the
text following a serialized number cannot extend the digit run. -/
def digitStart : List Char → Bool
  | [] => false
  | c :: _ => isDigitC c

theorem digitChar_isDigit : ∀ n, n < 10 → isDigitC (digitChar n) = true := by decide

theorem digitVal_digitChar : ∀ n, n < 10 → digitVal (digitChar n) = n := by decide

theorem natCharsF_congr : ∀ f g n, n < f → n < g → natCharsF f n = natCharsF g n := by
  intro f
  induction f with
  | zero => intro g n h; omega
  | succ f ih =>
    intro g n hf hg
    match g, hg with
    | g + 1, _ =>
      show natCharsF (f + 1) n = natCharsF (g + 1) n
      simp only [natCharsF]
      split
      · rfl
      · rw [ih g (n / 10) (by omega) (by omega)]

theorem natChars_lt10 (n : Nat) (h : n < 10) : natChars n = [digitChar n] := by
  unfold natChars natCharsF
  simp [h]

theorem natChars_ge10 (n : Nat) (h : 10 ≤ n) :
    natChars n = natChars (n / 10) ++ [digitChar (n % 10)] := by
  unfold natChars
  conv_lhs => simp only [natCharsF]
  rw [if_neg (by omega)]
  rw [natCharsF_congr n (n / 10 + 1) (n / 10) (by omega) (by omega)]

theorem natChars_head (n : Nat) :
    ∃ c cs, natChars n = c :: cs ∧ isDigitC c = true := by
  induction n using Nat.strong_induction_on with
  | _ n ih =>
    by_cases h : n < 10
    · exact ⟨digitChar n, [], natChars_lt10 n h, digitChar_isDigit n h⟩
    · obtain ⟨c, cs, hc, hd⟩ := ih (n / 10) (by omega)
      refine ⟨c, cs ++ [digitChar (n % 10)], ?_, hd⟩
      rw [natChars_ge10 n (by omega), hc]
      rfl

theorem parseDigits_stop (acc : Nat) (rest : List Char) (h : digitStart rest = false) :
    parseDigits acc rest = (acc, rest) := by
  cases rest with
  | nil => rfl
  | cons c cs =>
    simp only [digitStart] at h
    simp [parseDigits, h]

theorem parseDigits_natChars (n : Nat) :
    ∀ acc rest, parseDigits acc (natChars n ++ rest) =
      parseDigits (acc * 10 ^ (natChars n).length + n) rest := by
  induction n using Nat.strong_induction_on with
  | _ n ih =>
    intro acc rest
    by_cases h : n < 10
    · rw [natChars_lt10 n h, List.singleton_append]
      have h1 : parseDigits acc (digitChar n :: rest) = parseDigits (10 * acc + n) rest := by
        simp [parseDigits, digitChar_isDigit n h, digitVal_digitChar n h]
      rw [h1]
      congr 1
      simp only [List.length_cons, List.length_nil, zero_add, pow_one]
      omega
    · rw [natChars_ge10 n (by omega), List.append_assoc, ih (n / 10) (by omega),
        List.singleton_append]
      have h1 : parseDigits (acc * 10 ^ (natChars (n / 10)).length + n / 10)
            (digitChar (n % 10) :: rest) =
          parseDigits (10 * (acc * 10 ^ (natChars (n / 10)).length + n / 10) + n % 10)
            rest := by
        simp [parseDigits, digitChar_isDigit (n % 10) (by omega),
          digitVal_digitChar (n % 10) (by omega)]
      rw [h1]
      congr 1
      have h2 : (natChars (n / 10) ++ [digitChar (n % 10)]).length =
          (natChars (n / 10)).length + 1 := by simp
      rw [h2, pow_succ]
      have h3 : 10 * (n / 10) + n % 10 = n := by omega
      calc 10 * (acc * 10 ^ (natChars (n / 10)).length + n / 10) + n % 10
          = acc * (10 ^ (natChars (n / 10)).length * 10) + (10 * (n / 10) + n % 10) := by
            ring
        _ = acc * (10 ^ (natChars (n / 10)).length * 10) + n := by rw [h3]

/-- Digits are distinct from every structural character the parser
dispatches on. -/
theorem isDigitC_ne (c : Char) (h : isDigitC c = true) :
    c ≠ '-' ∧ c ≠ 'n' ∧ c ≠ 't' ∧ c ≠ 'f' ∧ c ≠ '"' ∧ c ≠ '[' ∧ c ≠ '\x7b' ∧
      c ≠ ']' ∧ c ≠ ',' ∧ c ≠ '\x7d' ∧ c ≠ ':' := by
  refine ⟨?_, ?_, ?_, ?_, ?_, ?_, ?_, ?_, ?_, ?_, ?_⟩ <;>
    (rintro rfl; exact absurd h (by decide))

theorem parseDigits_run (m : Nat) (cs rest : List Char) (c : Char)
    (hm : natChars m = c :: cs) (hrest : digitStart rest = false) :
    parseDigits (digitVal c) (cs ++ rest) = (m, rest) := by
  have h0 : parseDigits 0 (natChars m ++ rest) = (m, rest) := by
    rw [parseDigits_natChars m 0 rest, parseDigits_stop _ _ hrest]
    simp
  rw [hm] at h0
  have hd : isDigitC c = true := by
    obtain ⟨c', cs', hc', hd'⟩ := natChars_head m
    rw [hm] at hc'
    cases hc'
    exact hd'
  rw [List.cons_append] at h0
  unfold parseDigits at h0
  rw [if_pos hd] at h0
  simpa using h0

theorem parseNumber_intChars (n : Int) (rest : List Char) (hrest : digitStart rest = false) :
    parseNumber (intChars n ++ rest) = some (.num n, rest) := by
  unfold intChars
  by_cases hn : n < 0
  · rw [if_pos hn]
    obtain ⟨c, cs, hc, hd⟩ := natChars_head n.natAbs
    rw [hc, List.cons_append, List.cons_append]
    simp only [parseNumber, if_pos rfl, hd, if_true]
    rw [parseDigits_run n.natAbs cs rest c hc hrest]
    dsimp only
    have hna : -((n.natAbs : Nat) : Int) = n := by omega
    rw [hna]
  · rw [if_neg hn]
    obtain ⟨c, cs, hc, hd⟩ := natChars_head n.toNat
    rw [hc, List.cons_append]
    simp only [parseNumber, if_neg (isDigitC_ne c hd).1, hd, if_true]
    rw [parseDigits_run n.toNat cs rest c hc hrest]
    dsimp only
    have hna : ((n.toNat : Nat) : Int) = n := by omega
    rw [hna]

/-! ## Round-trip of the JSON codec: strings -/

theorem parseHexDigit_hexDigitChar : ∀ m, m < 16 → parseHexDigit (hexDigitChar m) = some m := by
  decide

theorem parseStringBody_escBody (s : List Char) (rest : List Char) :
    parseStringBody (escBody s ++ '"' :: rest) = some (s, rest) := by
  induction s with
  | nil =>
    rw [show escBody [] = [] from rfl, List.nil_append, parseStringBody.eq_def]
    simp
  | cons c cs ih =>
    show parseStringBody ((escapeChar c ++ escBody cs) ++ '"' :: rest) = some (c :: cs, rest)
    rw [List.append_assoc]
    by_cases h1 : c = '"'
    · subst h1
      rw [show escapeChar '"' = ['\\', '"'] from rfl, List.cons_append, List.cons_append,
        List.nil_append, parseStringBody.eq_def]
      simp [ih]
    · by_cases h2 : c = '\\'
      · subst h2
        rw [show escapeChar '\\' = ['\\', '\\'] from rfl, List.cons_append, List.cons_append,
          List.nil_append, parseStringBody.eq_def]
        simp [ih]
      · by_cases h3 : c = '\x08'
        · subst h3
          rw [show escapeChar '\x08' = ['\\', 'b'] from rfl, List.cons_append,
            List.cons_append, List.nil_append, parseStringBody.eq_def]
          simp [ih]
        · by_cases h4 : c = '\t'
          · subst h4
            rw [show escapeChar '\t' = ['\\', 't'] from rfl, List.cons_append,
              List.cons_append, List.nil_append, parseStringBody.eq_def]
            simp [ih]
          · by_cases h5 : c = '\n'
            · subst h5
              rw [show escapeChar '\n' = ['\\', 'n'] from rfl, List.cons_append,
                List.cons_append, List.nil_append, parseStringBody.eq_def]
              simp [ih]
            · by_cases h6 : c = '\x0c'
              · subst h6
                rw [show escapeChar '\x0c' = ['\\', 'f'] from rfl, List.cons_append,
                  List.cons_append, List.nil_append, parseStringBody.eq_def]
                simp [ih]
              · by_cases h7 : c = '\r'
                · subst h7
                  rw [show escapeChar '\r' = ['\\', 'r'] from rfl, List.cons_append,
                    List.cons_append, List.nil_append, parseStringBody.eq_def]
                  simp [ih]
                · by_cases h8 : c.toNat < 32
                  · have hesc : escapeChar c = uEscape c.toNat := by
                      unfold escapeChar
                      rw [if_neg h1, if_neg h2, if_neg h3, if_neg h4, if_neg h5, if_neg h6,
                        if_neg h7, if_pos h8]
                    rw [hesc]
                    unfold uEscape
                    have hchar : Char.ofNat (16 * (c.toNat / 16) + c.toNat % 16) = c := by
                      have harith : 16 * (c.toNat / 16) + c.toNat % 16 = c.toNat := by omega
                      rw [harith, Char.ofNat_toNat]
                    rw [List.cons_append, List.cons_append, List.cons_append,
                      List.cons_append, List.cons_append, List.cons_append, List.nil_append,
                      parseStringBody.eq_def]
                    simp [show parseHexDigit '0' = some 0 from rfl,
                      parseHexDigit_hexDigitChar (c.toNat / 16) (by omega),
                      parseHexDigit_hexDigitChar (c.toNat % 16) (by omega), hchar, ih]
                  · have hesc : escapeChar c = [c] := by
                      unfold escapeChar
                      rw [if_neg h1, if_neg h2, if_neg h3, if_neg h4, if_neg h5, if_neg h6,
                        if_neg h7, if_neg h8]
                    rw [hesc, List.singleton_append, parseStringBody.eq_def]
                    simp [h1, h2, ih]

/-! ## Round-trip of the JSON codec: values -/

theorem intChars_head (n : Int) :
    ∃ c cs, intChars n = c :: cs ∧ (c = '-' ∨ isDigitC c = true) := by
  unfold intChars
  by_cases hn : n < 0
  · rw [if_pos hn]
    exact ⟨'-', natChars n.natAbs, rfl, Or.inl rfl⟩
  · rw [if_neg hn]
    obtain ⟨c, cs, hc, hd⟩ := natChars_head n.toNat
    exact ⟨c, cs, hc, Or.inr hd⟩

/-- The first character of a serialized value is never the `]` that
closes a surrounding array. -/
theorem stringifyC_head_ne_rbracket (v : Json) :
    ∃ c cs, stringifyC v = c :: cs ∧ ¬c = ']' := by
  match v with
  | .null => exact ⟨'n', ['u', 'l', 'l'], rfl, by decide⟩
  | .bool true => exact ⟨'t', ['r', 'u', 'e'], rfl, by decide⟩
  | .bool false => exact ⟨'f', ['a', 'l', 's', 'e'], rfl, by decide⟩
  | .num n =>
    obtain ⟨c, cs, hc, hd⟩ := intChars_head n
    refine ⟨c, cs, by simp [stringifyC, hc], ?_⟩
    rcases hd with rfl | hd
    · decide
    · exact (isDigitC_ne c hd).2.2.2.2.2.2.2.1
  | .str s => exact ⟨'"', escBody s.data ++ ['"'], rfl, by decide⟩
  | .arr [] => exact ⟨'[', [']'], by simp [stringifyC], by decide⟩
  | .arr (x :: xs) =>
    exact ⟨'[', stringifyC x ++ arrTailC xs ++ [']'], by simp [stringifyC], by decide⟩
  | .obj [] => exact ⟨'\x7b', ['\x7d'], by simp [stringifyC], by decide⟩
  | .obj ((k, w) :: kvs) =>
    exact ⟨'\x7b', encodeStrC k.data ++ ':' :: stringifyC w ++ objTailC kvs ++ ['\x7d'],
      by simp [stringifyC], by decide⟩

theorem digitStart_arrTail (xs : List Json) (rest : List Char) :
    digitStart (arrTailC xs ++ ']' :: rest) = false := by
  cases xs with
  | nil => rfl
  | cons x xs =>
    rw [show arrTailC (x :: xs) = ',' :: stringifyC x ++ arrTailC xs from by simp [arrTailC]]
    rfl

theorem digitStart_objTail (kvs : List (String × Json)) (rest : List Char) :
    digitStart (objTailC kvs ++ '\x7d' :: rest) = false := by
  cases kvs with
  | nil => rfl
  | cons kv kvs =>
    rw [show objTailC (kv :: kvs) =
        ',' :: encodeStrC kv.1.data ++ ':' :: stringifyC kv.2 ++ objTailC kvs from by
      cases kv
      simp [objTailC]]
    rfl

/-- Inputs beginning with a minus sign or digit fall through the
structural dispatch of `parseValue` into the number parser. -/
theorem parseValue_number (f : Nat) (c : Char) (r : List Char)
    (hc : c = '-' ∨ isDigitC c = true) :
    parseValue (f + 1) (c :: r) = parseNumber (c :: r) := by
  have hne : ¬c = 'n' ∧ ¬c = 't' ∧ ¬c = 'f' ∧ ¬c = '"' ∧ ¬c = '[' ∧ ¬c = '\x7b' := by
    rcases hc with rfl | hd
    · refine ⟨?_, ?_, ?_, ?_, ?_, ?_⟩ <;> decide
    · have h := isDigitC_ne c hd
      exact ⟨h.2.1, h.2.2.1, h.2.2.2.1, h.2.2.2.2.1, h.2.2.2.2.2.1, h.2.2.2.2.2.2.1⟩
  rw [parseValue.eq_def]
  simp [hne.1, hne.2.1, hne.2.2.1, hne.2.2.2.1, hne.2.2.2.2.1, hne.2.2.2.2.2]

/-- The round-trip core: with enough fuel, `parseValue` undoes
`stringifyC` (and the tail parsers undo the tail serializers) in front
of any remainder that cannot extend a digit run. -/
theorem parse_stringifyC (f : Nat) :
    (∀ v rest, 2 * (stringifyC v).length + 1 ≤ f → digitStart rest = false →
      parseValue f (stringifyC v ++ rest) = some (v, rest)) ∧
    (∀ xs rest, 2 * (arrTailC xs).length + 2 ≤ f → digitStart rest = false →
      parseArrayTail f (arrTailC xs ++ ']' :: rest) = some (xs, rest)) ∧
    (∀ kvs rest, 2 * (objTailC kvs).length + 2 ≤ f → digitStart rest = false →
      parseObjTail f (objTailC kvs ++ '\x7d' :: rest) = some (kvs, rest)) := by
  induction f with
  | zero =>
    refine ⟨?_, ?_, ?_⟩ <;> (intro a rest hf hrest; omega)
  | succ f ih =>
    obtain ⟨ihP, ihQ, ihR⟩ := ih
    refine ⟨?_, ?_, ?_⟩
    · intro v rest hf hrest
      cases v with
      | null =>
        show parseValue (f + 1) ('n' :: 'u' :: 'l' :: 'l' :: rest) = some (.null, rest)
        rw [parseValue.eq_def]
        simp
      | bool b =>
        cases b with
        | true =>
          show parseValue (f + 1) ('t' :: 'r' :: 'u' :: 'e' :: rest) = some (.bool true, rest)
          rw [parseValue.eq_def]
          simp
        | false =>
          show parseValue (f + 1) ('f' :: 'a' :: 'l' :: 's' :: 'e' :: rest) =
            some (.bool false, rest)
          rw [parseValue.eq_def]
          simp
      | num n =>
        obtain ⟨c, cs, hc, hd⟩ := intChars_head n
        show parseValue (f + 1) (intChars n ++ rest) = some (.num n, rest)
        rw [hc, List.cons_append, parseValue_number f c (cs ++ rest) hd,
          ← List.cons_append, ← hc]
        exact parseNumber_intChars n rest hrest
      | str s =>
        show parseValue (f + 1) (encodeStrC s.data ++ rest) = some (.str s, rest)
        rw [show encodeStrC s.data ++ rest = '"' :: (escBody s.data ++ '"' :: rest) from by
          simp [encodeStrC]]
        rw [parseValue.eq_def]
        simp [parseStringBody_escBody]
      | arr items =>
        cases items with
        | nil =>
          show parseValue (f + 1) ('[' :: ']' :: rest) = some (.arr [], rest)
          rw [parseValue.eq_def]
          simp
        | cons x xs =>
          have hstr : stringifyC (.arr (x :: xs)) = '[' :: stringifyC x ++ arrTailC xs ++ [']'] := by
            simp [stringifyC]
          rw [hstr] at hf
          simp only [List.length_cons, List.length_append, List.length_nil] at hf
          obtain ⟨cx, tx, hcx, hcxne⟩ := stringifyC_head_ne_rbracket x
          have hxlen : (stringifyC x).length = (cx :: tx).length := by rw [hcx]
          simp only [List.length_cons] at hxlen
          have hpv := ihP x (arrTailC xs ++ ']' :: rest) (by omega) (digitStart_arrTail xs rest)
          have hpt := ihQ xs rest (by omega) hrest
          rw [hcx, List.cons_append] at hpv
          rw [show stringifyC (.arr (x :: xs)) ++ rest =
              '[' :: cx :: (tx ++ (arrTailC xs ++ ']' :: rest)) from by
            rw [hstr, hcx]
            simp]
          rw [parseValue.eq_def]
          simp [hcxne, hpv, hpt]
      | obj entries =>
        cases entries with
        | nil =>
          show parseValue (f + 1) ('\x7b' :: '\x7d' :: rest) = some (.obj [], rest)
          rw [parseValue.eq_def]
          simp
        | cons kv kvs =>
          obtain ⟨k, v⟩ := kv
          have hstr : stringifyC (.obj ((k, v) :: kvs)) =
              '\x7b' :: encodeStrC k.data ++ ':' :: stringifyC v ++ objTailC kvs ++ ['\x7d'] := by
            simp [stringifyC]
          rw [hstr] at hf
          simp only [encodeStrC, List.length_cons, List.length_append, List.length_nil] at hf
          have hpv := ihP v (objTailC kvs ++ '\x7d' :: rest) (by omega)
            (digitStart_objTail kvs rest)
          have hpt := ihR kvs rest (by omega) hrest
          rw [show stringifyC (.obj ((k, v) :: kvs)) ++ rest =
              '\x7b' :: '"' :: (escBody k.data ++
                '"' :: (':' :: (stringifyC v ++ (objTailC kvs ++ '\x7d' :: rest)))) from by
            rw [hstr]
            simp [encodeStrC]]
          rw [parseValue.eq_def]
          simp [parseStringBody_escBody, hpv, hpt]
    · intro xs rest hf hrest
      cases xs with
      | nil =>
        show parseArrayTail (f + 1) (']' :: rest) = some ([], rest)
        rw [parseArrayTail.eq_def]
        simp
      | cons x xs =>
        have hstr : arrTailC (x :: xs) = ',' :: stringifyC x ++ arrTailC xs := by
          simp [arrTailC]
        rw [hstr] at hf
        simp only [List.length_cons, List.length_append] at hf
        have hpv := ihP x (arrTailC xs ++ ']' :: rest) (by omega) (digitStart_arrTail xs rest)
        have hpt := ihQ xs rest (by omega) hrest
        rw [show arrTailC (x :: xs) ++ ']' :: rest =
            ',' :: (stringifyC x ++ (arrTailC xs ++ ']' :: rest)) from by
          rw [hstr]
          simp]
        rw [parseArrayTail.eq_def]
        simp [hpv, hpt]
    · intro kvs rest hf hrest
      cases kvs with
      | nil =>
        show parseObjTail (f + 1) ('\x7d' :: rest) = some ([], rest)
        rw [parseObjTail.eq_def]
        simp
      | cons kv kvs =>
        obtain ⟨k, v⟩ := kv
        have hstr : objTailC ((k, v) :: kvs) =
            ',' :: encodeStrC k.data ++ ':' :: stringifyC v ++ objTailC kvs := by
          simp [objTailC]
        rw [hstr] at hf
        simp only [encodeStrC, List.length_cons, List.length_append] at hf
        have hpv := ihP v (objTailC kvs ++ '\x7d' :: rest) (by omega)
          (digitStart_objTail kvs rest)
        have hpt := ihR kvs rest (by omega) hrest
        rw [show objTailC ((k, v) :: kvs) ++ '\x7d' :: rest =
            ',' :: '"' :: (escBody k.data ++
              '"' :: (':' :: (stringifyC v ++ (objTailC kvs ++ '\x7d' :: rest)))) from by
          rw [hstr]
          simp [encodeStrC]]
        rw [parseObjTail.eq_def]
        simp [parseStringBody_escBody, hpv, hpt]

/-- `JSON.parse` undoes `JSON.stringify` on every serializable value. -/
theorem jsonParse_jsonStringify (v : Json) : jsonParse (jsonStringify v) = some v := by
  have h := (parse_stringifyC (2 * (stringifyC v).length + 2)).1 v [] (by omega) rfl
  rw [List.append_nil] at h
  unfold jsonParse jsonStringify
  rw [show (⟨stringifyC v⟩ : String).data = stringifyC v from rfl, h]

/-- C1: when the backing service returns for `get(k)` exactly the bytes
`set(k, v)` sent, and the gunzip stream inverts the gzip stream (the
zlib codec pair is abstract, assumed inverse up to arbitrary chunking of
the decompressed text), the decoding pipeline of `get` — gunzip, chunk
accumulation, `JSON.parse` — resolves a value deep-equal to `v`. -/
theorem set_then_get_roundtrip {β : Type} (gzip : ZlibOptions → String → β)
    (gunzipStream : β → GunzipResult) (v : Json)
    (hcodec : ∀ o s, ∃ cs, gunzipStream (gzip o s) = .chunks cs ∧ cs.foldl (· ++ ·) "" = s) :
    HttpStore.getOnResponse 200 (gunzipStream (HttpStore.setBody gzip (some v))) =
      .resolved (some v) := by
  obtain ⟨cs, hch, hcat⟩ := hcodec ZLIB_OPTIONS (HttpStore.setSerialized (some v))
  unfold HttpStore.setBody
  rw [hch]
  unfold HttpStore.getOnResponse
  simp [hcat, setSerialized_some, jsonParse_jsonStringify]

/-- C1 witness: the identity codec over text bodies satisfies the
inversion hypothesis, and a compound value survives the pipeline. -/
theorem set_then_get_roundtrip_witness :
    HttpStore.getOnResponse 200
      ((fun b => GunzipResult.chunks [b])
        (HttpStore.setBody (fun _ s => s)
          (some (Json.obj [("key",
            Json.arr [Json.num (-360), Json.str "a\nb", Json.bool true, Json.null])])))) =
      GetOutcome.resolved
        (some (Json.obj [("key",
          Json.arr [Json.num (-360), Json.str "a\nb", Json.bool true, Json.null])])) :=
  set_then_get_roundtrip (fun _ s => s) (fun b => GunzipResult.chunks [b]) _
    (fun _ s => ⟨[s], rfl, by cases s; rfl⟩)
